import Mathlib

set_option maxRecDepth 10000

/-!
Verification development for the gameinstance/audio repository: a shallow
embedding of the FLAC decoder core (src/include/flac.hh) and of the WAVE
header writer (src/include/wave.hh), with theorems settling the frozen
claims about the natural-language specification.

The bitstream is modelled as a list of booleans (MSB-first, exactly the
order in which stream::bit::input delivers bits).  Fallible reads return
Option / Except values; decoder methods return the mutated decoder
together with the remaining bits and an optional error, so that field
assignments performed before a C++ throw are visible in the result, just
as they are in the source (the thrown exception leaves the object in its
partially-updated state).
-/

/-- Error kinds of the decoder, following the spec's error taxonomy
(section 7); the C++ source throws `basics::error` with a message that
identifies the same condition. -/
inductive flac_error where
  | bad_marker
  | bad_sync
  | bad_reserved
  | reserved
  | unsupported
  | buffer_too_small
  | bad_partitioning
  | unexpected_end
deriving DecidableEq, Repr

/-- Lifecycle states of `audio::flac::decoder` (enum class decoder_state). -/
inductive decoder_state where
  | init
  | has_marker
  | has_metadata
  | complete
deriving DecidableEq, Repr

/-- Position of a state in the forward order Init, HasMarker, HasMetadata,
Complete. -/
def stateRank : decoder_state → Nat
  | .init => 0
  | .has_marker => 1
  | .has_metadata => 2
  | .complete => 3

/-- Mirror of `audio::flac::streaminfo_type`. -/
structure streaminfo_type where
  min_block_size : Nat
  max_block_size : Nat
  min_frame_size : Nat
  max_frame_size : Nat
  sample_rate : Nat
  channel_count : Nat
  sample_bit_size : Nat
  sample_count : Nat
deriving DecidableEq, Repr

/-- Mutable fields of `audio::flac::decoder` that the embedded operations
touch.  The two rows of `_buffer` (max_channel_count = 2) are the pair
`buffer`; `_coefficients` is threaded locally through the LPC subframe
decoder instead of being stored. -/
structure Decoder where
  state : decoder_state
  streaminfo : streaminfo_type
  sample_count : Nat
  block_size : Nat
  block_sample_rate : Nat
  frame_count : Nat
  buffer : List Int × List Int
deriving Repr

/-- Bitstream: the not-yet-consumed bits of the input, MSB-first. -/
abbrev Bits := List Bool

/-- Value of a bit string read MSB-first. -/
def bitsVal (l : Bits) : Nat :=
  l.foldl (fun a b => 2 * a + (if b then 1 else 0)) 0

/-- Model of `stream::bit::input::get_uint(n)`: read `n` bits MSB-first;
`none` models the UnexpectedEnd exception when the source runs dry
mid-field. -/
def getUint (n : Nat) (bs : Bits) : Option (Nat × Bits) :=
  if bs.length < n then none else some (bitsVal (bs.take n), bs.drop n)

/-- Sign extension of an `n`-bit value `u < 2^n` from bit `n-1`. -/
def signExtend (n u : Nat) : Int :=
  if u < 2 ^ (n - 1) then (u : Int) else (u : Int) - 2 ^ n

/-- Model of `stream::bit::input::get_int(n)`: read `n` bits and
sign-extend from bit `n-1` to a 64-bit signed value. -/
def getInt (n : Nat) (bs : Bits) : Option (Int × Bits) :=
  match getUint n bs with
  | none => none
  | some (u, bs) => some (signExtend n u, bs)

/-- Count zero bits up to and including the terminating one bit (the
unary loops of `_get_rice_int` and of the wasted-bits field). -/
def getUnary : Bits → Option (Nat × Bits)
  | [] => none
  | true :: r => some (0, r)
  | false :: r =>
    match getUnary r with
    | none => none
    | some (q, r2) => some (q + 1, r2)

/-- Skip `n` whole bytes (`_istream.get_byte()` in a loop). -/
def skipBytes : Nat → Bits → Option Bits
  | 0, bs => some bs
  | n + 1, bs =>
    match getUint 8 bs with
    | none => none
    | some (_, bs) => skipBytes n bs

/-- Conversion of a `uint64_t` value to C `int` (32 bits): truncate to 32
bits and reinterpret as two's complement. -/
def toInt32 (v : Nat) : Int := signExtend 32 (v % 2 ^ 32)

/-- Conversion of a `uint64_t` value to `int64_t`: reinterpret the 64-bit
pattern as two's complement. -/
def toInt64 (v : Nat) : Int := signExtend 64 (v % 2 ^ 64)

/-- Model of `_get_rice_int(bit_count)`: unary quotient (zero bits until a
one bit), then `bit_count` remainder bits, assembled on a `uint64_t` and
mapped to a signed value; the even branch goes through a C `int` cast as
in the source (`(int)(uval >> 1)`). -/
def get_rice_int (bit_count : Nat) (bs : Bits) : Option (Int × Bits) :=
  match getUnary bs with
  | none => none
  | some (q, bs) =>
    match getUint bit_count bs with
    | none => none
    | some (r, bs) =>
      let uval := ((q % 2 ^ 64) <<< bit_count ||| r) % 2 ^ 64
      let res : Int :=
        if uval &&& 1 = 1 then -(toInt64 (uval >>> 1)) - 1 else toInt32 (uval >>> 1)
      some (res, bs)

/-- Modelled from the spec (section 4.B and glossary): the Rice code of a
signed integer `v` with parameter `k` — the zigzag image
`u = 2v` (v ≥ 0) or `2(−v)−1` (v < 0), emitted as `u >> k` zero bits, a
terminating one bit, and the low `k` bits of `u` MSB-first.  The encoder
is not part of the repository (the source only decodes); it is needed to
state the Rice round-trip law. -/
def zigzag (v : Int) : Nat :=
  if 0 ≤ v then (2 * v).toNat else (2 * (-v) - 1).toNat

/-- Write `v < 2^n` as `n` bits MSB-first (low bit last). -/
def natBitsMSB : Nat → Nat → Bits
  | 0, _ => []
  | n + 1, v => natBitsMSB n (v / 2) ++ [decide (v % 2 = 1)]

/-- Modelled from the spec: Rice encoding, unary quotient then `k`
remainder bits (see `zigzag`). -/
def riceEncode (k : Nat) (v : Int) : Bits :=
  List.replicate (zigzag v / 2 ^ k) false ++ [true] ++ natBitsMSB k (zigzag v % 2 ^ k)

/-- Arithmetic right shift on a signed 64-bit value (`>>` on `int64_t`):
floor division by a power of two. -/
def asr (v : Int) (n : Nat) : Int := Int.fdiv v (2 ^ n)

/-- Fill `cnt` Rice-coded residuals into the buffer starting at index `j`
(the non-escape branch of the partition loop in `_decode_residuals`). -/
def riceFill (k : Nat) (buf : List Int) (j cnt : Nat) (bs : Bits) :
    Option (List Int × Bits) :=
  match cnt with
  | 0 => some (buf, bs)
  | n + 1 =>
    match get_rice_int k bs with
    | none => none
    | some (v, bs) => riceFill k (buf.set j v) (j + 1) n bs

/-- Fill `cnt` verbatim `w`-bit signed residuals starting at index `j`
(the escape branch of the partition loop). -/
def escapeFill (w : Nat) (buf : List Int) (j cnt : Nat) (bs : Bits) :
    Option (List Int × Bits) :=
  match cnt with
  | 0 => some (buf, bs)
  | n + 1 =>
    match getInt w bs with
    | none => none
    | some (v, bs) => escapeFill w (buf.set j v) (j + 1) n bs

/-- Partition loop of `_decode_residuals`: for each remaining partition,
read the Rice parameter and fill the partition's index range.  Partition
`i` spans `i*psize + (i = 0 ? order : 0)` to `(i+1)*psize`. -/
def partitionsLoop (paramBits escape order psize : Nat) (buf : List Int)
    (i count : Nat) (bs : Bits) : Option (List Int × Bits) :=
  match count with
  | 0 => some (buf, bs)
  | n + 1 =>
    let start := i * psize + (if i = 0 then order else 0)
    let stop := (i + 1) * psize
    match getUint paramBits bs with
    | none => none
    | some (param, bs) =>
      if param < escape then
        match riceFill param buf start (stop - start) bs with
        | none => none
        | some (buf, bs) => partitionsLoop paramBits escape order psize buf (i + 1) n bs
      else
        match getUint 5 bs with
        | none => none
        | some (w, bs) =>
          match escapeFill w buf start (stop - start) bs with
          | none => none
          | some (buf, bs) => partitionsLoop paramBits escape order psize buf (i + 1) n bs

/-- Model of `_decode_residuals(order)`: 2-bit coding method (2..3
reserved), 4-bit partition order `po` giving `2^po` partitions, the
divisibility check `buffer.size() % partition_count != 0` (throwing
BadPartitioning), then the partition loop.  `buf` is the channel's buffer,
already resized to the frame's block size. -/
def decode_residuals (order : Nat) (buf : List Int) (bs : Bits) :
    Except flac_error (List Int × Bits) :=
  match getUint 2 bs with
  | none => .error .unexpected_end
  | some (coding_method, bs) =>
    if coding_method > 1 then .error .reserved
    else
      match getUint 4 bs with
      | none => .error .unexpected_end
      | some (partition_order, bs) =>
        let partition_count := 2 ^ partition_order
        let parameter_bit_size := if coding_method = 0 then 4 else 5
        let escape_code := if coding_method = 0 then 15 else 31
        if buf.length % partition_count ≠ 0 then .error .bad_partitioning
        else
          let partition_size := buf.length / partition_count
          match partitionsLoop parameter_bit_size escape_code order partition_size
              buf 0 partition_count bs with
          | none => .error .unexpected_end
          | some (buf, bs) => .ok (buf, bs)

/-- Predictor sum at index `i`:
`Σ_{j<order} buf[i-1-j] * coefficients[j]` on `int64_t`. -/
def lpSum (coefficients : List Int) (order : Nat) (buf : List Int) (i : Nat) : Int :=
  (List.range order).foldl (fun acc j => acc + buf.getD (i - 1 - j) 0 * coefficients.getD j 0) 0

/-- Model of `_restore_linear_prediction(coefficients, order, shift)`:
for `i` from `order` to the end of the buffer,
`buf[i] += sum >> shift` with `sum` the predictor sum at `i`. -/
def restore_linear_prediction (coefficients : List Int) (order shift : Nat)
    (buf : List Int) : List Int :=
  (List.range (buf.length - order)).foldl
    (fun b k =>
      let i := order + k
      b.set i (b.getD i 0 + asr (lpSum coefficients order b i) shift))
    buf

/-- The table `_fixed_prediction_coefficients` of the source. -/
def fixed_prediction_coefficients : Nat → List Int
  | 0 => []
  | 1 => [1]
  | 2 => [2, -1]
  | 3 => [3, -3, 1]
  | 4 => [4, -6, 4, -1]
  | _ => []

/-- Read `n` signed `w`-bit integers in sequence (warm-up samples, LPC
coefficients). -/
def readInts (n w : Nat) (bs : Bits) : Option (List Int × Bits) :=
  match n with
  | 0 => some ([], bs)
  | m + 1 =>
    match getInt w bs with
    | none => none
    | some (v, bs) =>
      match readInts m w bs with
      | none => none
      | some (vs, bs) => some (v :: vs, bs)

/-- Write the values `vs` into the buffer at consecutive indices starting
at `j` (the warm-up loops of the fixed and LPC subframe decoders). -/
def writeSeq (buf : List Int) (j : Nat) (vs : List Int) : List Int :=
  match vs with
  | [] => buf
  | v :: vs => writeSeq (buf.set j v) (j + 1) vs

/-- The `uint8_t` cast the source applies to the 5-bit signed LPC
quantization shift when passing it to `_restore_linear_prediction`
(parameter type `uint8_t shift`): two's-complement truncation to 8 bits,
so a negative shift such as −1 becomes 255. -/
def lpc_shift_code (s : Int) : Nat := (s % 256).toNat

/-- Modelled from the spec (section 9, open question 1): the reference
FLAC behavior clamps a negative quantization shift to zero,
`max(S, 0)`. -/
def lpc_shift_clamped (s : Int) : Nat := s.toNat

/-- Model of `_decode_subframe_fixed(order, sample_bit_size)`. -/
def decode_subframe_fixed (order sample_bit_size : Nat) (buf : List Int) (bs : Bits) :
    Except flac_error (List Int × Bits) :=
  match readInts order sample_bit_size bs with
  | none => .error .unexpected_end
  | some (ws, bs) =>
    match decode_residuals order (writeSeq buf 0 ws) bs with
    | .error e => .error e
    | .ok (buf, bs) =>
      .ok (restore_linear_prediction (fixed_prediction_coefficients order) order 0 buf, bs)

/-- Model of `_decode_subframe_lpc(order, sample_bit_size)`: warm-ups,
4-bit precision (plus one), 5-bit signed shift, `order` coefficients of
the given precision, residuals, then reconstruction with the shift cast
to `uint8_t` (see `lpc_shift_code`). -/
def decode_subframe_lpc (order sample_bit_size : Nat) (buf : List Int) (bs : Bits) :
    Except flac_error (List Int × Bits) :=
  match readInts order sample_bit_size bs with
  | none => .error .unexpected_end
  | some (ws, bs) =>
    match getUint 4 bs with
    | none => .error .unexpected_end
    | some (p, bs) =>
      let precision := p + 1
      match getInt 5 bs with
      | none => .error .unexpected_end
      | some (shift, bs) =>
        match readInts order precision bs with
        | none => .error .unexpected_end
        | some (coefficients, bs) =>
          match decode_residuals order (writeSeq buf 0 ws) bs with
          | .error e => .error e
          | .ok (buf, bs) =>
            .ok (restore_linear_prediction coefficients order (lpc_shift_code shift) buf, bs)

/-- Model of `_decode_subframe(sample_bit_size)`: subframe header (one
ignored padding bit, 6-bit type, wasted-bits flag with unary count),
dispatch to constant / verbatim / fixed / LPC, then the wasted-bits
left-shift loop of the source — which iterates `for (auto sample :
buffer)` over by-value copies, so the buffer is returned unchanged. -/
def decode_subframe (sample_bit_size : Nat) (buf : List Int) (bs : Bits) :
    Except flac_error (List Int × Bits) :=
  match getUint 1 bs with
  | none => .error .unexpected_end
  | some (_, bs) =>
  match getUint 6 bs with
  | none => .error .unexpected_end
  | some (subframe_type, bs) =>
  match getUint 1 bs with
  | none => .error .unexpected_end
  | some (wflag, bs) =>
  match (if wflag = 1 then getUnary bs else some (0, bs)) with
  | none => .error .unexpected_end
  | some (wasted_bits, bs) =>
  let wasted_bits := wasted_bits % 256
  let sbs := (sample_bit_size % 256 + 256 - wasted_bits) % 256
  match
    (if subframe_type = 0 then
      match getInt sbs bs with
      | none => .error .unexpected_end
      | some (v, bs) => .ok (List.replicate buf.length v, bs)
    else if subframe_type = 1 then
      match readInts buf.length sbs bs with
      | none => .error .unexpected_end
      | some (vs, bs) => .ok (vs, bs)
    else if subframe_type < 8 then .error .reserved
    else if subframe_type < 13 then decode_subframe_fixed (subframe_type - 8) sbs buf bs
    else if subframe_type < 32 then .error .reserved
    else decode_subframe_lpc (subframe_type - 31) sbs buf bs :
      Except flac_error (List Int × Bits)) with
  | .error e => .error e
  | .ok (buf, bs) =>
    -- wasted-bits loop: `for (auto sample : _buffer[ch]) sample <<= wasted_bits;`
    -- binds copies, so it does not write the buffer back
    .ok (buf, bs)

/-- Modelled from the spec (section 4.E): after reconstruction, if the
wasted-bits count `k` is positive, left-shift every sample of the buffer
by `k` bits.  The source's loop (see `decode_subframe`) fails to do
this. -/
def apply_wasted_shift (k : Nat) (buf : List Int) : List Int :=
  if k > 0 then buf.map (fun v => v * 2 ^ k) else buf

/-- Count of leading one bits of a byte
(`stream::bit::countl_zero<uint8_t>(~b)` in the source). -/
def leadingOnes8 (b : Nat) : Nat :=
  if b % 256 < 128 then 0
  else if b % 128 < 64 then 1
  else if b % 64 < 32 then 2
  else if b % 32 < 16 then 3
  else if b % 16 < 8 then 4
  else if b % 8 < 4 then 5
  else if b % 4 < 2 then 6
  else if b % 2 < 1 then 7
  else 8

/-- Model of `_get_block_size(flags_4bit)`, mirroring the source's chain
of conditions (`144 * (1 << flags)` for codes 2..5, stream reads for 6
and 7, `256 * (1 << (flags-8))` for 8..15, reserved failure for 0).  The
function's return type is `uint16_t`, so every returned value is
truncated modulo 2^16; the constant branches (192, at most 144·32 = 4608
and 256·128 = 32768) and code 6 (at most 256) already fit, but code 7's
`get_uint(16) + 1` can reach 65536, which wraps to 0. -/
def get_block_size (flags : Nat) (bs : Bits) : Except flac_error (Nat × Bits) :=
  if flags = 1 then .ok (192, bs)
  else if 1 < flags ∧ flags < 6 then .ok (144 * (1 <<< flags) % 2 ^ 16, bs)
  else if flags = 6 then
    match getUint 8 bs with
    | none => .error .unexpected_end
    | some (v, bs) => .ok ((v + 1) % 2 ^ 16, bs)
  else if flags = 7 then
    match getUint 16 bs with
    | none => .error .unexpected_end
    | some (v, bs) => .ok ((v + 1) % 2 ^ 16, bs)
  else if 7 < flags ∧ flags < 16 then .ok (256 * (1 <<< (flags - 8)) % 2 ^ 16, bs)
  else .error .reserved

/-- Modelled from the spec (section 4.F, decoded fields): the 16-entry
block-size table as the specification words it — code 0 reserved (fail);
1 → 192; 2..5 → 576·2^(code−2); 6 → next byte + 1; 7 → next 16-bit + 1;
8..15 → 256·2^(code−8).  Used to state claim C7 as a refinement. -/
def block_size_spec (flags : Nat) (bs : Bits) : Except flac_error (Nat × Bits) :=
  if flags = 0 then .error .reserved
  else if flags = 1 then .ok (192, bs)
  else if flags ≤ 5 then .ok (576 * 2 ^ (flags - 2), bs)
  else if flags = 6 then
    match getUint 8 bs with
    | none => .error .unexpected_end
    | some (v, bs) => .ok (v + 1, bs)
  else if flags = 7 then
    match getUint 16 bs with
    | none => .error .unexpected_end
    | some (v, bs) => .ok (v + 1, bs)
  else .ok (256 * 2 ^ (flags - 8), bs)

/-- The block-size table amended for the source's `uint16_t` return type:
identical to `block_size_spec` except that code 7 yields
`(next 16-bit value + 1) mod 2^16`, so a 16-bit field of 0xFFFF yields 0
instead of 65536.  All other entries fit in 16 bits unchanged. -/
def block_size_spec_amended (flags : Nat) (bs : Bits) : Except flac_error (Nat × Bits) :=
  if flags = 0 then .error .reserved
  else if flags = 1 then .ok (192, bs)
  else if flags ≤ 5 then .ok (576 * 2 ^ (flags - 2), bs)
  else if flags = 6 then
    match getUint 8 bs with
    | none => .error .unexpected_end
    | some (v, bs) => .ok (v + 1, bs)
  else if flags = 7 then
    match getUint 16 bs with
    | none => .error .unexpected_end
    | some (v, bs) => .ok ((v + 1) % 2 ^ 16, bs)
  else .ok (256 * 2 ^ (flags - 8), bs)

/-- Model of `_get_sample_rate(flags_4bit)`; `si_rate` is
`_streaminfo.sample_rate`. -/
def get_sample_rate (si_rate flags : Nat) (bs : Bits) : Except flac_error (Nat × Bits) :=
  if flags = 0 then .ok (si_rate, bs)
  else if flags = 1 then .ok (88200, bs)
  else if flags = 2 then .ok (176400, bs)
  else if flags = 3 then .ok (192000, bs)
  else if flags = 4 then .ok (8000, bs)
  else if flags = 5 then .ok (16000, bs)
  else if flags = 6 then .ok (22050, bs)
  else if flags = 7 then .ok (24000, bs)
  else if flags = 8 then .ok (32000, bs)
  else if flags = 9 then .ok (44100, bs)
  else if flags = 10 then .ok (48000, bs)
  else if flags = 11 then .ok (96000, bs)
  else if flags = 12 then
    match getUint 8 bs with
    | none => .error .unexpected_end
    | some (v, bs) => .ok (v * 1000, bs)
  else if flags = 13 then
    match getUint 16 bs with
    | none => .error .unexpected_end
    | some (v, bs) => .ok (v, bs)
  else if flags = 14 then
    match getUint 16 bs with
    | none => .error .unexpected_end
    | some (v, bs) => .ok (v * 10, bs)
  else .error .reserved

/-- Model of `_get_sample_bit_size(flags_3bit)`; `si_bits` is
`_streaminfo.sample_bit_size`. -/
def get_sample_bit_size (si_bits flags : Nat) : Except flac_error Nat :=
  if flags = 0 then .ok si_bits
  else if flags = 1 then .ok 8
  else if flags = 2 then .ok 12
  else if flags = 4 then .ok 16
  else if flags = 5 then .ok 20
  else if flags = 6 then .ok 24
  else if flags = 7 then .ok 32
  else .error .reserved

/-- The frame-header fields read before any decoder member is assigned:
sync code, first reserved bit, blocking strategy, the four bitsets, the
second reserved bit and the UTF-8-like coded frame number (one byte whose
leading-ones count minus one gives the number of extra bytes to skip). -/
def parse_frame_prefix (bs : Bits) :
    Except flac_error ((Nat × Nat × Nat × Nat) × Bits) :=
  match getUint 14 bs with
  | none => .error .unexpected_end
  | some (sync_code, bs) =>
  if sync_code ≠ 0x3FFE then .error .bad_sync
  else
  match getUint 1 bs with
  | none => .error .unexpected_end
  | some (r1, bs) =>
  if r1 ≠ 0 then .error .bad_reserved
  else
  match getUint 1 bs with
  | none => .error .unexpected_end
  | some (_, bs) =>
  match getUint 4 bs with
  | none => .error .unexpected_end
  | some (block_size_bitset, bs) =>
  match getUint 4 bs with
  | none => .error .unexpected_end
  | some (sample_rate_bitset, bs) =>
  match getUint 4 bs with
  | none => .error .unexpected_end
  | some (channel_assignment_bitset, bs) =>
  match getUint 3 bs with
  | none => .error .unexpected_end
  | some (sample_bit_size_bitset, bs) =>
  match getUint 1 bs with
  | none => .error .unexpected_end
  | some (r2, bs) =>
  if r2 ≠ 0 then .error .bad_reserved
  else
  match getUint 8 bs with
  | none => .error .unexpected_end
  | some (b0, bs) =>
  match skipBytes (leadingOnes8 b0 - 1) bs with
  | none => .error .unexpected_end
  | some bs =>
    .ok ((block_size_bitset, sample_rate_bitset, channel_assignment_bitset,
          sample_bit_size_bitset), bs)

/-- Model of `std::vector::resize(n)` on a channel buffer: keep the first
`n` elements, pad with zeros if the buffer grows. -/
def vresize (l : List Int) (n : Nat) : List Int :=
  l.take n ++ List.replicate (n - l.length) 0

/-- Mid/side reconstruction loop of `decode_audio` (channel assignment
10): per index, `side = buf1[i]`, `right = buf0[i] - (side >> 1)`,
`buf1[i] = right`, `buf0[i] = right + side`. -/
def midside_decorrelate (mid side : List Int) : List Int × List Int :=
  (List.zipWith (fun m s => m - asr s 1 + s) mid side,
   List.zipWith (fun m s => m - asr s 1) mid side)

/-- Subframe passes of `decode_audio` for channel assignment below 8: one
subframe per channel index up to `_streaminfo.channel_count` (at most the
two buffer rows), each preceded by the `resize` of the channel buffer. -/
def decode_independent_channels (sbs channel_count block_size : Nat)
    (buffer : List Int × List Int) (bs : Bits) :
    Except flac_error ((List Int × List Int) × Bits) :=
  if channel_count = 0 then .ok (buffer, bs)
  else
    match decode_subframe sbs (vresize buffer.1 block_size) bs with
    | .error e => .error e
    | .ok (b0, bs) =>
      if channel_count = 1 then .ok ((b0, buffer.2), bs)
      else
        match decode_subframe sbs (vresize buffer.2 block_size) bs with
        | .error e => .error e
        | .ok (b1, bs) => .ok ((b0, b1), bs)

/-- The non-EOS path of `decode_audio`: frame header, per-channel
subframes, inter-channel decorrelation, byte alignment and frame footer.
`pos0` is the absolute bit offset of the head of `bs0` in the stream,
used to model `_istream.align()`. -/
def decode_frame (d : Decoder) (pos0 : Nat) (bs0 : Bits) :
    Decoder × Bits × Option flac_error :=
  match parse_frame_prefix bs0 with
  | .error e => (d, bs0, some e)
  | .ok ((block_size_bitset, sample_rate_bitset, channel_assignment_bitset,
          sample_bit_size_bitset), bs) =>
  match get_block_size block_size_bitset bs with
  | .error e => (d, bs, some e)
  | .ok (bsize, bs) =>
  let d := { d with block_size := bsize }
  match get_sample_rate d.streaminfo.sample_rate sample_rate_bitset bs with
  | .error e => (d, bs, some e)
  | .ok (srate, bs) =>
  let d := { d with block_sample_rate := srate }
  match get_sample_bit_size d.streaminfo.sample_bit_size sample_bit_size_bitset with
  | .error e => (d, bs, some e)
  | .ok sample_bit_size =>
  match getUint 8 bs with  -- CRC-8, consumed and not verified
  | none => (d, bs, some .unexpected_end)
  | some (_, bs) =>
  match
    (if channel_assignment_bitset < 8 then
      decode_independent_channels sample_bit_size d.streaminfo.channel_count bsize
        d.buffer bs
    else if channel_assignment_bitset < 11 then
      match decode_subframe
          (sample_bit_size + (if channel_assignment_bitset = 9 then 1 else 0))
          (vresize d.buffer.1 bsize) bs with
      | .error e => .error e
      | .ok (b0, bs) =>
        match decode_subframe
            (sample_bit_size + (if channel_assignment_bitset = 9 then 0 else 1))
            (vresize d.buffer.2 bsize) bs with
        | .error e => .error e
        | .ok (b1, bs) =>
          if channel_assignment_bitset = 8 then
            .ok ((b0, List.zipWith (fun l s => l - s) b0 b1), bs)
          else if channel_assignment_bitset = 9 then
            .ok ((List.zipWith (fun s r => s + r) b0 b1, b1), bs)
          else
            .ok (midside_decorrelate b0 b1, bs)
    else .error .unsupported :
      Except flac_error ((List Int × List Int) × Bits)) with
  | .error e => (d, bs, some e)
  | .ok (buffer, bs) =>
  let d := { d with buffer := buffer,
                    sample_count := d.sample_count + bsize,
                    frame_count := d.frame_count + 1 }
  -- `_istream.align()`: drop the 0..7 bits up to the next byte boundary
  let bs := bs.drop ((8 - (pos0 + (bs0.length - bs.length)) % 8) % 8)
  match getUint 16 bs with  -- CRC-16, consumed and not verified
  | none => (d, bs, some .unexpected_end)
  | some (_, bs) => (d, bs, none)

/-- Model of `decode_audio()`: if the bit reader is at end-of-stream the
state becomes `complete` and nothing else happens; otherwise one frame is
decoded. -/
def decode_audio (d : Decoder) (pos0 : Nat) (bs : Bits) :
    Decoder × Bits × Option flac_error :=
  if bs = [] then ({ d with state := .complete }, bs, none)
  else decode_frame d pos0 bs

/-- Model of `decode_marker()`: read 32 bits, require the `fLaC` magic
0x664C6143, then assign `_state = has_marker`. -/
def decode_marker (d : Decoder) (bs : Bits) : Decoder × Bits × Option flac_error :=
  match getUint 32 bs with
  | none => (d, bs, some .unexpected_end)
  | some (v, bs) =>
    if v ≠ 0x664C6143 then (d, bs, some .bad_marker)
    else ({ d with state := .has_marker }, bs, none)

/-- The STREAMINFO branch of `decode_metadata`: the eight fixed-width
fields assigned one by one (so an UnexpectedEnd mid-body keeps the fields
already assigned), the two assertions on channel count and block size,
then the 16 MD5 bytes. -/
def read_streaminfo (d : Decoder) (buffer_capacity : Nat) (bs : Bits) :
    Decoder × Bits × Option flac_error :=
  match getUint 16 bs with
  | none => (d, bs, some .unexpected_end)
  | some (v, bs) =>
  let d := { d with streaminfo := { d.streaminfo with min_block_size := v } }
  match getUint 16 bs with
  | none => (d, bs, some .unexpected_end)
  | some (v, bs) =>
  let d := { d with streaminfo := { d.streaminfo with max_block_size := v } }
  match getUint 24 bs with
  | none => (d, bs, some .unexpected_end)
  | some (v, bs) =>
  let d := { d with streaminfo := { d.streaminfo with min_frame_size := v } }
  match getUint 24 bs with
  | none => (d, bs, some .unexpected_end)
  | some (v, bs) =>
  let d := { d with streaminfo := { d.streaminfo with max_frame_size := v } }
  match getUint 20 bs with
  | none => (d, bs, some .unexpected_end)
  | some (v, bs) =>
  let d := { d with streaminfo := { d.streaminfo with sample_rate := v } }
  match getUint 3 bs with
  | none => (d, bs, some .unexpected_end)
  | some (v, bs) =>
  let d := { d with streaminfo := { d.streaminfo with channel_count := v + 1 } }
  match getUint 5 bs with
  | none => (d, bs, some .unexpected_end)
  | some (v, bs) =>
  let d := { d with streaminfo := { d.streaminfo with sample_bit_size := v + 1 } }
  match getUint 36 bs with
  | none => (d, bs, some .unexpected_end)
  | some (v, bs) =>
  let d := { d with streaminfo := { d.streaminfo with sample_count := v } }
  if d.streaminfo.channel_count > 2 then (d, bs, some .unsupported)
  else if d.streaminfo.max_block_size > buffer_capacity then
    (d, bs, some .buffer_too_small)
  else
    match skipBytes 16 bs with
    | none => (d, bs, some .unexpected_end)
    | some bs => (d, bs, none)

/-- Body of `decode_metadata` after the last-block flag: block type and
length, then either the STREAMINFO branch or an opaque skip. -/
def decode_metadata_rest (d : Decoder) (buffer_capacity : Nat) (bs : Bits) :
    Decoder × Bits × Option flac_error :=
  match getUint 7 bs with
  | none => (d, bs, some .unexpected_end)
  | some (metadata_type_id, bs) =>
  match getUint 24 bs with
  | none => (d, bs, some .unexpected_end)
  | some (metadata_byte_size, bs) =>
  if metadata_type_id = 0 then read_streaminfo d buffer_capacity bs
  else
    match skipBytes metadata_byte_size bs with
    | none => (d, bs, some .unexpected_end)
    | some bs => (d, bs, none)

/-- Model of `decode_metadata()`: the 1-bit last-block flag assigns
`_state = has_metadata` immediately — before the block body is parsed —
then the header's remaining fields and the body are read. -/
def decode_metadata (d : Decoder) (buffer_capacity : Nat) (bs : Bits) :
    Decoder × Bits × Option flac_error :=
  match getUint 1 bs with
  | none => (d, bs, some .unexpected_end)
  | some (flag, bs) =>
    let d := if flag = 1 then { d with state := .has_metadata } else d
    decode_metadata_rest d buffer_capacity bs

/-- A freshly constructed decoder (BUFFER_SIZE = 8192): zeroed fields,
state `init`, two channel buffers of 8192 zero samples. -/
def init_decoder : Decoder :=
  { state := .init
    streaminfo := ⟨0, 0, 0, 0, 0, 0, 0, 0⟩
    sample_count := 0
    block_size := 0
    block_sample_rate := 0
    frame_count := 0
    buffer := (List.replicate 8192 0, List.replicate 8192 0) }

/-- Mirror of `audio::wave::streaminfo_type`. -/
structure wave_streaminfo_type where
  sample_rate : Nat
  sample_bit_size : Nat
  channel_count : Nat
  sample_count : Nat
deriving DecidableEq, Repr

/-- Little-endian bytes of a 32-bit field (`_put_int32`): the low four
bytes of the value, least significant first. -/
def put_int32 (v : Nat) : List Nat :=
  [v % 256, v / 2 ^ 8 % 256, v / 2 ^ 16 % 256, v / 2 ^ 24 % 256]

/-- Little-endian bytes of a 16-bit field (`_put_int16`). -/
def put_int16 (v : Nat) : List Nat :=
  [v % 256, v / 2 ^ 8 % 256]

/-- Model of `audio::wave::encoder::encode_header(info)`: the bytes
written to the output stream, in order.  `data_size` is computed exactly
as in the source: `channel_count * sample_count * sample_bit_size` with
no division by 8. -/
def encode_header (info : wave_streaminfo_type) : List Nat :=
  let data_size := info.channel_count * info.sample_count * info.sample_bit_size
  let frame_size := info.sample_bit_size / 8 * info.channel_count
  let byte_rate := frame_size * info.sample_rate
  [0x52, 0x49, 0x46, 0x46] ++                -- "RIFF"
  put_int32 (4 + 8 + 16 + 8 + data_size) ++
  [0x57, 0x41, 0x56, 0x45] ++                -- "WAVE"
  [0x66, 0x6d, 0x74, 0x20] ++                -- "fmt "
  put_int32 16 ++
  put_int16 1 ++
  put_int16 info.channel_count ++
  put_int32 info.sample_rate ++
  put_int32 byte_rate ++
  put_int16 frame_size ++
  put_int16 info.sample_bit_size ++
  [0x64, 0x61, 0x74, 0x61] ++                -- "data"
  put_int32 data_size

/-! Helper lemmas about the bit-level primitives. -/

theorem bit_val_eq (b : Bool) (n : Nat) : Nat.bit b n = 2 * n + b.toNat := by
  cases b <;> simp [Nat.bit]

theorem bit_mod_div (r : Nat) : Nat.bit (decide (r % 2 = 1)) (r / 2) = r := by
  rw [bit_val_eq]
  rcases Nat.even_or_odd r with h | h
  · have h0 : r % 2 = 0 := Nat.even_iff.mp h
    simp [h0]
    omega
  · have h1 : r % 2 = 1 := Nat.odd_iff.mp h
    simp [h1]
    omega

theorem decide_mod_toNat (r : Nat) : (decide (r % 2 = 1)).toNat = r % 2 := by
  rcases Nat.even_or_odd r with h | h
  · simp [Nat.even_iff.mp h]
  · simp [Nat.odd_iff.mp h]

theorem mul_pow_lor {k q r : Nat} (h : r < 2 ^ k) : (q <<< k) ||| r = q * 2 ^ k + r := by
  induction k generalizing q r with
  | zero =>
    interval_cases r
    simp [Nat.shiftLeft_zero]
  | succ k ih =>
    have hp : 2 ^ (k + 1) = 2 ^ k * 2 := by ring
    have hr2 : r / 2 < 2 ^ k := by omega
    have e1 : q <<< (k + 1) = Nat.bit false (q <<< k) := by
      rw [bit_val_eq, Nat.shiftLeft_eq, Nat.shiftLeft_eq]
      simp [Nat.pow_succ]
      ring
    have key : (q <<< (k + 1)) ||| r = Nat.bit (decide (r % 2 = 1)) (q * 2 ^ k + r / 2) := by
      conv_lhs => rw [e1, ← bit_mod_div r]
      rw [Nat.lor_bit]
      simp only [Bool.false_or]
      rw [ih hr2]
    rw [key, bit_val_eq, decide_mod_toNat]
    have hq : q * 2 ^ (k + 1) = 2 * (q * 2 ^ k) := by
      rw [hp]
      ring
    omega

theorem getUnary_replicate (q : Nat) (tl : Bits) :
    getUnary (List.replicate q false ++ true :: tl) = some (q, tl) := by
  induction q with
  | zero => rfl
  | succ n ih => simp [List.replicate_succ, getUnary, ih]

theorem natBitsMSB_length (n v : Nat) : (natBitsMSB n v).length = n := by
  induction n generalizing v with
  | zero => rfl
  | succ m ih => simp [natBitsMSB, ih]

theorem bitsVal_append_bit (l : Bits) (b : Bool) :
    bitsVal (l ++ [b]) = 2 * bitsVal l + b.toNat := by
  unfold bitsVal
  rw [List.foldl_append]
  cases b <;> simp

theorem bitsVal_natBitsMSB (n v : Nat) : bitsVal (natBitsMSB n v) = v % 2 ^ n := by
  induction n generalizing v with
  | zero => simp [natBitsMSB, bitsVal, Nat.mod_one]
  | succ m ih =>
    rw [natBitsMSB, bitsVal_append_bit, ih, decide_mod_toNat]
    have hp : (2 : Nat) ^ (m + 1) = 2 * 2 ^ m := by ring
    rw [hp]
    have h2 : v % (2 * 2 ^ m) = v % 2 + 2 * (v / 2 % 2 ^ m) := Nat.mod_mul
    omega

theorem getUint_encoded (n v : Nat) (h : v < 2 ^ n) (rest : Bits) :
    getUint n (natBitsMSB n v ++ rest) = some (v, rest) := by
  have hlen : (natBitsMSB n v).length = n := natBitsMSB_length n v
  unfold getUint
  rw [List.length_append, hlen]
  have : ¬ (n + rest.length < n) := by omega
  rw [if_neg this]
  rw [List.take_left' hlen, List.drop_left' hlen, bitsVal_natBitsMSB]
  rw [Nat.mod_eq_of_lt h]

theorem bitsVal_lt (l : Bits) : bitsVal l < 2 ^ l.length := by
  induction l using List.reverseRecOn with
  | nil => simp [bitsVal]
  | append_singleton xs b ih =>
    rw [bitsVal_append_bit, List.length_append]
    have hp : (2 : Nat) ^ (xs.length + 1) = 2 ^ xs.length * 2 := by ring
    have hb : b.toNat ≤ 1 := by cases b <;> simp
    simp only [List.length_singleton]
    omega

theorem getUint_some_lt (n : Nat) (bs : Bits) (v : Nat) (rest : Bits)
    (h : getUint n bs = some (v, rest)) : v < 2 ^ n := by
  unfold getUint at h
  split at h
  · exact Option.noConfusion h
  · rename_i hlen
    rw [Option.some.injEq, Prod.mk.injEq] at h
    obtain ⟨h1, h2⟩ := h
    have hl : (bs.take n).length = n := by
      rw [List.length_take]
      omega
    have := bitsVal_lt (bs.take n)
    rw [hl] at this
    omega

theorem read_streaminfo_state (d : Decoder) (bc : Nat) (bs : Bits) :
    (read_streaminfo d bc bs).1.state = d.state := by
  unfold read_streaminfo
  repeat' first
    | rfl
    | split
    | dsimp only

theorem decode_metadata_rest_state (d : Decoder) (bc : Nat) (bs : Bits) :
    (decode_metadata_rest d bc bs).1.state = d.state := by
  unfold decode_metadata_rest
  repeat' first
    | rfl
    | exact read_streaminfo_state _ bc _
    | split

theorem decode_frame_state (d : Decoder) (pos0 : Nat) (bs : Bits) :
    (decode_frame d pos0 bs).1.state = d.state := by
  unfold decode_frame
  repeat' first
    | rfl
    | split
    | dsimp only

theorem stateRank_le_three (s : decoder_state) : stateRank s ≤ 3 := by
  cases s <;> simp [stateRank]

/-! Theorems settling the claims. -/

/-- C1: the claim says that after reconstruction of a subframe declaring
k ≥ 1 wasted bits every sample in the channel buffer has been left-shifted
by k bits.  The source's shift loop iterates over by-value copies, so the
buffer is not shifted: decoding a constant subframe (sample bit size 8,
block size 2) with the wasted-bits flag set, k = 1 and 7-bit value 5
leaves the buffer at [5, 5], while the claimed behavior
(`apply_wasted_shift`) would give [10, 10]. -/
theorem c1_wasted_bits_not_shifted :
    decode_subframe 8 [0, 0]
      [false, false, false, false, false, false, false, true, false, true,
       false, false, false, false, true, false, true] = Except.ok ([5, 5], [])
    ∧ apply_wasted_shift 1 [5, 5] = [10, 10]
    ∧ ([5, 5] : List Int) ≠ [10, 10] :=
  ⟨rfl, rfl, by decide⟩

/-- C2: the claim (with the spec, section 9 open question 1) says a
negative 5-bit LPC quantization shift S is clamped to 0.  The source
instead passes S through a `uint8_t` cast, so S = −1 becomes a shift by
255 (undefined behavior on `int64_t` in C++): decoding an order-1 LPC
subframe with warm-up 4, coefficient 1, shift bits 11111 and residual 0
yields [4, 0], while the clamp-to-zero reconstruction yields [4, 4]. -/
theorem c2_negative_shift_not_clamped :
    decode_subframe 8 [0, 0]
      [false, true, false, false, false, false, false, false,
       false, false, false, false, false, true, false, false,
       false, false, false, true, true, true, true, true, true,
       false, true, false, false, false, false, false, false,
       false, false, false, false, true] = Except.ok ([4, 0], [])
    ∧ lpc_shift_code (-1) = 255
    ∧ lpc_shift_clamped (-1) = 0
    ∧ restore_linear_prediction [1] 1 (lpc_shift_clamped (-1)) [4, 0] = [4, 4]
    ∧ ([4, 0] : List Int) ≠ [4, 4] :=
  ⟨rfl, rfl, rfl, rfl, by decide⟩

/-- C3, counterexample: from the reachable state HasMetadata (obtained by
decoding the marker and a single last-flagged metadata block),
`decode_marker` on a stream that happens to contain the `fLaC` magic
succeeds and moves the state back to HasMarker — so the claim that no call
ever moves the state to an earlier value is false. -/
theorem c3_counterexample_backward_transition :
    (decode_marker init_decoder (natBitsMSB 32 0x664C6143)).1.state = decoder_state.has_marker
    ∧ (decode_metadata (decode_marker init_decoder (natBitsMSB 32 0x664C6143)).1 8192
        ([true] ++ [false, false, false, false, false, false, true] ++
          List.replicate 24 false)).1.state = decoder_state.has_metadata
    ∧ (decode_marker
        (decode_metadata (decode_marker init_decoder (natBitsMSB 32 0x664C6143)).1 8192
          ([true] ++ [false, false, false, false, false, false, true] ++
            List.replicate 24 false)).1
        (natBitsMSB 32 0x664C6143)).1.state = decoder_state.has_marker
    ∧ stateRank decoder_state.has_marker < stateRank decoder_state.has_metadata :=
  ⟨rfl, rfl, rfl, by decide⟩

/-- C3, amended: `decode_audio` never moves the state backward from any
state, and `decode_marker` / `decode_metadata` never move it backward when
invoked in their intended states (`decode_marker` in Init or HasMarker,
`decode_metadata` in HasMarker or HasMetadata); the original claim fails
only for calls made outside those states (see the counterexample). -/
theorem c3_amended_monotonic :
    (∀ (d : Decoder) (pos0 : Nat) (bs : Bits),
      stateRank d.state ≤ stateRank (decode_audio d pos0 bs).1.state)
    ∧ (∀ (d : Decoder) (bs : Bits),
      d.state = decoder_state.init ∨ d.state = decoder_state.has_marker →
      stateRank d.state ≤ stateRank (decode_marker d bs).1.state)
    ∧ (∀ (d : Decoder) (bc : Nat) (bs : Bits),
      d.state = decoder_state.has_marker ∨ d.state = decoder_state.has_metadata →
      stateRank d.state ≤ stateRank (decode_metadata d bc bs).1.state) := by
  refine ⟨?_, ?_, ?_⟩
  · intro d pos0 bs
    unfold decode_audio
    split
    · exact stateRank_le_three d.state
    · rw [decode_frame_state]
  · intro d bs h
    unfold decode_marker
    split
    · exact Nat.le_refl _
    · split
      · exact Nat.le_refl _
      · rcases h with h | h <;> simp [h, stateRank]
  · intro d bc bs h
    unfold decode_metadata
    split
    · exact Nat.le_refl _
    · split
      · rw [decode_metadata_rest_state]
        rcases h with h | h <;> simp [h, stateRank]
      · rw [decode_metadata_rest_state]

/-- C3, witness for the amended theorem: each conjunct applied at a
concrete decoder and input. -/
theorem c3_amended_monotonic_witness :
    (stateRank init_decoder.state ≤ stateRank (decode_audio init_decoder 0 []).1.state)
    ∧ (stateRank init_decoder.state ≤ stateRank (decode_marker init_decoder []).1.state)
    ∧ (stateRank ({ init_decoder with state := decoder_state.has_marker } : Decoder).state ≤
        stateRank (decode_metadata { init_decoder with state := decoder_state.has_marker }
          8192 []).1.state) :=
  ⟨c3_amended_monotonic.1 init_decoder 0 [],
   c3_amended_monotonic.2.1 init_decoder [] (Or.inl rfl),
   c3_amended_monotonic.2.2 { init_decoder with state := decoder_state.has_marker } 8192 []
     (Or.inl rfl)⟩

/-- C5: for channel assignment 10 the decoder stores
`r = mid[i] - (side[i] >> 1)` (arithmetic shift) into channel 1 and
`r + side[i]` into channel 0, and on the concrete S6 input
(mid [100, 100], side [4, −4]) reconstructs left [102, 98] and right
[98, 102]. -/
theorem c5_midside_reconstruction :
    ∀ (mid side : List Int) (i : Nat) (hm : i < mid.length) (hs : i < side.length),
      ((midside_decorrelate mid side).2)[i]? =
        some (mid.get ⟨i, hm⟩ - asr (side.get ⟨i, hs⟩) 1)
      ∧ ((midside_decorrelate mid side).1)[i]? =
        some (mid.get ⟨i, hm⟩ - asr (side.get ⟨i, hs⟩) 1 + side.get ⟨i, hs⟩)
      ∧ midside_decorrelate [100, 100] [4, -4] = ([102, 98], [98, 102]) := by
  intro mid side i hm hs
  refine ⟨?_, ?_, by decide⟩
  · show (List.zipWith (fun m s => m - asr s 1) mid side)[i]? = _
    rw [List.getElem?_zipWith]
    simp [List.getElem?_eq_getElem, hm, hs]
  · show (List.zipWith (fun m s => m - asr s 1 + s) mid side)[i]? = _
    rw [List.getElem?_zipWith]
    simp [List.getElem?_eq_getElem, hm, hs]

/-- C5, witness: the mid/side theorem applied at the S6 input, index 0. -/
theorem c5_midside_reconstruction_witness :
    ((midside_decorrelate [100, 100] [4, -4]).2)[0]? = some 98
    ∧ ((midside_decorrelate [100, 100] [4, -4]).1)[0]? = some 102 := by
  have h := c5_midside_reconstruction [100, 100] [4, -4] 0 (by decide) (by decide)
  exact ⟨h.1.trans (by decide), h.2.1.trans (by decide)⟩

/-- C6, counterexample: with block size 6, predictor order 2 and partition
order 2 (four partitions), `block_size − order = 4` is divisible by 4, so
the claim predicts no BadPartitioning — but the source checks
`block_size % partitions` (6 % 4 ≠ 0) and fails. -/
theorem c6_counterexample_order_not_subtracted :
    decode_residuals 2 (List.replicate 6 0)
      [false, false, false, false, true, false] =
      Except.error flac_error.bad_partitioning
    ∧ (6 - 2) % 2 ^ 2 = 0 :=
  ⟨rfl, by decide⟩

/-- C6, amended: residual decoding fails with BadPartitioning exactly when
the partition count 2^po does not evenly divide the block size (the full
buffer length), not block size minus the order; with coding method 0 or 1
no other input produces this error. -/
theorem c6_amended_partition_check :
    ∀ (order : Nat) (buf : List Int) (bs bs1 bs2 : Bits) (cm po : Nat),
      getUint 2 bs = some (cm, bs1) → cm ≤ 1 → getUint 4 bs1 = some (po, bs2) →
      (decode_residuals order buf bs = Except.error flac_error.bad_partitioning
        ↔ buf.length % 2 ^ po ≠ 0) := by
  intro order buf bs bs1 bs2 cm po h1 hcm h2
  have hgt : ¬ (cm > 1) := by omega
  unfold decode_residuals
  rw [h1]
  dsimp only
  rw [if_neg hgt, h2]
  dsimp only
  by_cases hd : buf.length % 2 ^ po ≠ 0
  · rw [if_pos hd]
    simp [hd]
  · rw [if_neg hd]
    split <;> simp [hd]

/-- C6, witness for the amended theorem: order 0, a four-sample buffer and
partition order 1 — two partitions dividing four samples, no
BadPartitioning. -/
theorem c6_amended_partition_check_witness :
    decode_residuals 0 (List.replicate 4 0)
        [false, false, false, false, false, true, false, false, false, false,
         true, true, false, false, false, false, true, true] =
        Except.error flac_error.bad_partitioning
      ↔ (List.replicate 4 (0 : Int)).length % 2 ^ 1 ≠ 0 :=
  c6_amended_partition_check 0 (List.replicate 4 0)
    [false, false, false, false, false, true, false, false, false, false,
     true, true, false, false, false, false, true, true]
    [false, false, false, true, false, false, false, false,
     true, true, false, false, false, false, true, true]
    [false, false, false, false, true, true, false, false, false, false, true, true]
    0 1 rfl (by decide) rfl

/-- C7, counterexample: `_get_block_size` returns `uint16_t`, so for code
7 with the 16-bit field 0xFFFF the source computes 0xFFFF + 1 = 65536 and
truncates it to 0, while the claim's table (`block_size_spec`) says the
block size is the next 16-bit value plus 1, i.e. 65536. -/
theorem c7_counterexample_uint16_truncation :
    get_block_size 7 (List.replicate 16 true) = Except.ok (0, [])
    ∧ block_size_spec 7 (List.replicate 16 true) = Except.ok (65536, [])
    ∧ (0 : Nat) ≠ 65536 :=
  ⟨rfl, rfl, by decide⟩

/-- C7, amended: the block size is decoded from the 4-bit code as the
spec's 16-entry table states (code 0 reserved; 1 → 192;
2..5 → 576·2^(code−2); 6 → next byte + 1; 8..15 → 256·2^(code−8)) except
that code 7 yields the next 16-bit value plus 1 truncated to `uint16_t`,
so a field of 0xFFFF yields 0; stated as equality with the amended table
`block_size_spec_amended`. -/
theorem c7_amended_block_size_table :
    ∀ (flags : Nat) (bs : Bits), flags < 16 →
      get_block_size flags bs = block_size_spec_amended flags bs := by
  intro flags bs h
  by_cases h6 : flags = 6
  · subst h6
    cases hg : getUint 8 bs with
    | none => simp [get_block_size, block_size_spec_amended, hg]
    | some p =>
      obtain ⟨v, rest⟩ := p
      have hv : v < 2 ^ 8 := getUint_some_lt 8 bs v rest hg
      simp only [get_block_size, block_size_spec_amended, hg]
      norm_num
      omega
  · interval_cases flags
    all_goals first
      | rfl
      | exact absurd rfl h6

/-- C7, witness for the amended theorem: code 7 with the all-ones 16-bit
field, the truncating entry of the table. -/
theorem c7_amended_block_size_table_witness :
    get_block_size 7 (List.replicate 16 true) =
      block_size_spec_amended 7 (List.replicate 16 true) :=
  c7_amended_block_size_table 7 (List.replicate 16 true) (by decide)

/-- C8: calling `decode_audio` at end-of-stream sets the state to Complete
and returns with the input and both sample buffers untouched; a repeated
call on the exhausted stream is a no-op and produces no samples. -/
theorem c8_eos_to_complete :
    ∀ (d : Decoder) (pos0 pos1 : Nat),
      decode_audio d pos0 [] = ({ d with state := decoder_state.complete }, [], none)
      ∧ (decode_audio d pos0 []).1.buffer = d.buffer
      ∧ (decode_audio d pos0 []).1.block_size = d.block_size
      ∧ decode_audio (decode_audio d pos0 []).1 pos1 [] =
          ((decode_audio d pos0 []).1, [], none) :=
  fun _ _ _ => ⟨rfl, rfl, rfl, rfl⟩

/-- C9: the WAVE header writer emits the data-chunk size field as
`channel_count * sample_count * sample_bit_size` — a bit count, with no
division by 8 — and the RIFF chunk size field as 36 plus that same value
(fields at byte offsets 40 and 4, little-endian). -/
theorem c9_wave_header_sizes :
    ∀ info : wave_streaminfo_type,
      ((encode_header info).drop 40).take 4 =
        put_int32 (info.channel_count * info.sample_count * info.sample_bit_size)
      ∧ ((encode_header info).drop 4).take 4 =
        put_int32 (36 + info.channel_count * info.sample_count * info.sample_bit_size) :=
  fun _ => ⟨rfl, rfl⟩

/-- C10: `decode_metadata` assigns the HasMetadata state from the
last-block flag before parsing the block body, so the transition persists
even when the body parse fails — on the one-bit input `[true]` the call
reports UnexpectedEnd yet leaves the state at HasMetadata. -/
theorem c10_state_set_before_body :
    (∀ (d : Decoder) (bc : Nat) (rest : Bits),
      (decode_metadata d bc (true :: rest)).1.state = decoder_state.has_metadata)
    ∧ (decode_metadata { init_decoder with state := decoder_state.has_marker } 8192
        [true]).2.2 = some flac_error.unexpected_end
    ∧ (decode_metadata { init_decoder with state := decoder_state.has_marker } 8192
        [true]).1.state = decoder_state.has_metadata := by
  refine ⟨?_, rfl, rfl⟩
  intro d bc rest
  show (decode_metadata_rest { d with state := decoder_state.has_metadata } bc rest).1.state = _
  rw [decode_metadata_rest_state]

/-- C4: for every Rice parameter k ≤ 30 and every signed value v in the
32-bit signed range (the range the decoder's C `int` cast makes
representable), decoding the Rice code of v — unary quotient, k remainder
bits, zigzag sign mapping — returns exactly v and consumes exactly the
code's bits. -/
theorem c4_rice_roundtrip :
    ∀ (k : Nat) (v : Int) (rest : Bits),
      k ≤ 30 → -(2 ^ 31) ≤ v → v < 2 ^ 31 →
      get_rice_int k (riceEncode k v ++ rest) = some (v, rest) := by
  intro k v rest hk hlo hhi
  have hu : zigzag v < 2 ^ 32 := by
    unfold zigzag
    split <;> omega
  have hrlt : zigzag v % 2 ^ k < 2 ^ k := Nat.mod_lt _ (Nat.two_pow_pos k)
  have e : riceEncode k v ++ rest =
      List.replicate (zigzag v / 2 ^ k) false ++
        true :: (natBitsMSB k (zigzag v % 2 ^ k) ++ rest) := by
    simp [riceEncode, List.append_assoc]
  rw [e]
  unfold get_rice_int
  rw [getUnary_replicate]
  dsimp only
  rw [getUint_encoded k _ hrlt rest]
  dsimp only
  have hqm : zigzag v / 2 ^ k % 2 ^ 64 = zigzag v / 2 ^ k := by
    apply Nat.mod_eq_of_lt
    have : zigzag v / 2 ^ k ≤ zigzag v := Nat.div_le_self _ _
    have h64 : (2 : Nat) ^ 32 < 2 ^ 64 := by norm_num
    omega
  rw [hqm, mul_pow_lor hrlt]
  have hdm : zigzag v / 2 ^ k * 2 ^ k + zigzag v % 2 ^ k = zigzag v := by
    rw [Nat.mul_comm]
    exact Nat.div_add_mod _ _
  rw [hdm]
  have hum : zigzag v % 2 ^ 64 = zigzag v := by
    apply Nat.mod_eq_of_lt
    have h64 : (2 : Nat) ^ 32 < 2 ^ 64 := by norm_num
    omega
  rw [hum, Nat.and_one_is_mod, Nat.shiftRight_one]
  by_cases h0 : 0 ≤ v
  · have hz : zigzag v = 2 * v.toNat := by
      unfold zigzag
      rw [if_pos h0]
      omega
    rw [if_neg (by omega)]
    have hdiv : zigzag v / 2 = v.toNat := by omega
    rw [hdiv]
    unfold toInt32 signExtend
    have hm32 : v.toNat % 2 ^ 32 = v.toNat := Nat.mod_eq_of_lt (by omega)
    rw [hm32, if_pos (by omega), Int.toNat_of_nonneg h0]
  · have hn1 : 1 ≤ (-v).toNat := by omega
    have hz : zigzag v = 2 * (-v).toNat - 1 := by
      unfold zigzag
      rw [if_neg h0]
      omega
    rw [if_pos (by omega)]
    have hdiv : zigzag v / 2 = (-v).toNat - 1 := by omega
    rw [hdiv]
    unfold toInt64 signExtend
    have hm64 : ((-v).toNat - 1) % 2 ^ 64 = (-v).toNat - 1 := Nat.mod_eq_of_lt (by omega)
    rw [hm64, if_pos (by omega)]
    have hc : (((-v).toNat - 1 : Nat) : Int) = -v - 1 := by omega
    rw [hc]
    have hv : -(-v - 1) - 1 = v := by ring
    rw [hv]

/-- C4, witness: k = 2, v = −5, empty tail. -/
theorem c4_rice_roundtrip_witness :
    get_rice_int 2 (riceEncode 2 (-5) ++ []) = some (-5, []) :=
  c4_rice_roundtrip 2 (-5) [] (by decide) (by decide) (by decide)
